import Mathlib

/-!
Verification of the segment-trimming core of yt-speeder-upper
(src/speeder_upper.py), embedded shallowly: timestamps are rationals,
ffmpeg filter chains are explicit syntax trees, and the network / JSON
layer is modelled by explicit outcome values.
-/

namespace SpeederUpper

/-- Lexicographic order on intervals: Python `sorted` compares the
two-element lists `[start, end]` elementwise. -/
def segLE (a b : ℚ × ℚ) : Prop := a.1 < b.1 ∨ (a.1 = b.1 ∧ a.2 ≤ b.2)

instance : DecidableRel segLE := fun a b => by
  unfold segLE
  exact inferInstance

instance : IsTotal (ℚ × ℚ) segLE := by
  constructor
  intro a b
  rcases lt_trichotomy a.1 b.1 with h | h | h
  · exact Or.inl (Or.inl h)
  · rcases le_total a.2 b.2 with h2 | h2
    · exact Or.inl (Or.inr ⟨h, h2⟩)
    · exact Or.inr (Or.inr ⟨h.symm, h2⟩)
  · exact Or.inr (Or.inl h)

instance : IsTrans (ℚ × ℚ) segLE := by
  constructor
  intro a b c hab hbc
  rcases hab with h1 | ⟨h1, h1e⟩
  · rcases hbc with h2 | ⟨h2, h2e⟩
    · exact Or.inl (h1.trans h2)
    · exact Or.inl (h2 ▸ h1)
  · rcases hbc with h2 | ⟨h2, h2e⟩
    · exact Or.inl (h1 ▸ h2)
    · exact Or.inr ⟨h1.trans h2, h1e.trans h2e⟩

instance : IsAntisymm (ℚ × ℚ) segLE := by
  constructor
  intro a b hab hba
  rcases hab with h1 | ⟨h1, h1e⟩
  · rcases hba with h2 | ⟨h2, h2e⟩
    · exact absurd (h1.trans h2) (lt_irrefl _)
    · exact absurd h1 (h2 ▸ lt_irrefl _)
  · rcases hba with h2 | ⟨h2, h2e⟩
    · exact absurd h2 (h1 ▸ lt_irrefl _)
    · exact Prod.ext h1 (le_antisymm h1e h2e)

/-- The `sorted(...)` call of `find_worthwhile_clips`: sort the raw
`[start, end]` pairs lexicographically. -/
def sortSegs (l : List (ℚ × ℚ)) : List (ℚ × ℚ) := List.insertionSort segLE l

/-- Loop body of `find_worthwhile_clips` (src/speeder_upper.py lines
430-439): the running variable `start` is the cursor; each unwanted
segment whose start lies strictly beyond the cursor emits a keep pair,
and the cursor is then set to the segment's end (with no `max`).  After
the loop a final keep pair is emitted when the cursor is still short of
`total_duration`. -/
def sweepClips (start : ℚ) (sortedSegs : List (ℚ × ℚ)) (total_duration : ℚ) :
    List (ℚ × ℚ) :=
  match sortedSegs with
  | [] => if start < total_duration then [(start, total_duration)] else []
  | (segment_start, segment_end) :: rest =>
    if segment_start > start then
      (start, segment_start) :: sweepClips segment_end rest total_duration
    else
      sweepClips segment_end rest total_duration

/-- One SponsorBlock segment object: the `segment` field (a `[start, end]`
pair) and the category label, of which `find_worthwhile_clips` reads only
`segment`. -/
structure SBSegment where
  segment : ℚ × ℚ
  category : String
deriving DecidableEq

/-- Embedding of `find_worthwhile_clips(segments, total_duration)`
(src/speeder_upper.py lines 427-440). -/
def find_worthwhile_clips (segments : List SBSegment) (total_duration : ℚ) :
    List (ℚ × ℚ) :=
  sweepClips 0 (sortSegs (segments.map (fun x => x.segment))) total_duration

/-- Sum of the lengths of a list of intervals, as in
`sum([x[1] - x[0] for x in segments_to_keep])` at line 375. -/
def keepSum (clips : List (ℚ × ℚ)) : ℚ := (clips.map (fun x => x.2 - x.1)).sum

/-- Binary maximum on ℚ, spelled out so that it evaluates by kernel
reduction (the lattice `max` of Mathlib does not). -/
def qmax (a b : ℚ) : ℚ := if a ≤ b then b else a

lemma qmax_eq_max (a b : ℚ) : qmax a b = max a b := by
  unfold qmax
  by_cases h : a ≤ b
  · rw [if_pos h, max_eq_right h]
  · rw [if_neg h, max_eq_left (le_of_not_le h)]

/-- Cursor sweep exactly as the spec (section 4.1) words it: the cursor is
advanced to `max(cursor, unwanted.end)` instead of plainly to
`unwanted.end`.  Reference definition for the refinement claims. -/
def sweepClipsMax (cursor : ℚ) (sortedSegs : List (ℚ × ℚ)) (total_duration : ℚ) :
    List (ℚ × ℚ) :=
  match sortedSegs with
  | [] => if cursor < total_duration then [(cursor, total_duration)] else []
  | (s, e) :: rest =>
    if s > cursor then
      (cursor, s) :: sweepClipsMax (qmax cursor e) rest total_duration
    else
      sweepClipsMax (qmax cursor e) rest total_duration

/-- Spec section 4.1 `compute_keep_intervals`: the max-cursor sweep over the
sorted unwanted intervals, starting from cursor 0. -/
def compute_keep_intervals (unwanted : List (ℚ × ℚ)) (total_duration : ℚ) :
    List (ℚ × ℚ) :=
  sweepClipsMax 0 (sortSegs unwanted) total_duration

/-- Total duration minus the summed length of the spec's keep intervals.
Whenever every unwanted interval is well formed (0 ≤ start ≤ end) and
starts no later than `total_duration`, this equals the measure of the
union of the unwanted intervals clipped to `[0, total_duration]`:
`sweepClipsMax_mem_iff`, `sweepClipsMax_chain`, `sweepClipsMax_pos` and
`sweepClipsMax_bounds` show that the reference keep intervals are pairwise
disjoint, of positive length, lie inside `[0, total_duration]`, and
contain exactly the points of `[0, total_duration)` covered by no
unwanted interval.  Outside that regime the quantity is not a measure
(an unwanted interval starting past `total_duration` makes it negative). -/
def unionMeasure (unwanted : List (ℚ × ℚ)) (total_duration : ℚ) : ℚ :=
  total_duration - keepSum (compute_keep_intervals unwanted total_duration)

/-- A point is covered by (the half-open reading of) one of the intervals. -/
def covered (segs : List (ℚ × ℚ)) (t : ℚ) : Prop :=
  ∃ p ∈ segs, p.1 ≤ t ∧ t < p.2

/-- Video filter chains, one constructor per ffmpeg video filter the
script uses (`split`, `trim`, `setpts`, `scale`, `concat`). -/
inductive VTrack where
  | input : VTrack
  | split (parent : VTrack) (n i : Nat) : VTrack
  | trim (parent : VTrack) (s e : ℚ) : VTrack
  | setpts (parent : VTrack) (expr : String) : VTrack
  | scale (parent : VTrack) (w h : Nat) : VTrack
  | concat (n : Nat) (parts : List VTrack) : VTrack

/-- Audio filter chains, one constructor per ffmpeg audio filter the
script uses (`asplit`, `atrim`, `asetpts`, `atempo`, audio `concat`). -/
inductive ATrack where
  | input : ATrack
  | asplit (parent : ATrack) (n i : Nat) : ATrack
  | atrim (parent : ATrack) (s e : ℚ) : ATrack
  | asetpts (parent : ATrack) (expr : String) : ATrack
  | atempo (parent : ATrack) (factor : ℚ) : ATrack
  | aconcat (n : Nat) (parts : List ATrack) : ATrack

/-- Embedding of `trim_video` (src/speeder_upper.py lines 390-404). -/
def trim_video (video_stream : VTrack) (segments_to_keep : List (ℚ × ℚ)) :
    VTrack :=
  let n := segments_to_keep.length
  let streams_to_concat := segments_to_keep.enum.map (fun x =>
    VTrack.setpts (VTrack.trim (VTrack.split video_stream n x.1) x.2.1 x.2.2)
      ("PTS-STARTPTS"))
  VTrack.concat streams_to_concat.length streams_to_concat

/-- Embedding of `trim_audio` (src/speeder_upper.py lines 407-424). -/
def trim_audio (audio_stream : ATrack) (segments_to_keep : List (ℚ × ℚ)) :
    ATrack :=
  let n := segments_to_keep.length
  let streams_to_concat := segments_to_keep.enum.map (fun x =>
    ATrack.asetpts (ATrack.atrim (ATrack.asplit audio_stream n x.1) x.2.1 x.2.2)
      ("PTS-STARTPTS"))
  ATrack.aconcat streams_to_concat.length streams_to_concat

/-- Outcome of the `requests.get` call inside `fetch_sponsored_bits`:
a read timeout (the only exception the function catches), any other
exception raised by the request, or a returned response body. -/
inductive NetOutcome where
  | readTimeout : NetOutcome
  | otherException (msg : String) : NetOutcome
  | response (text : String) : NetOutcome

/-- Embedding of `fetch_sponsored_bits` (src/speeder_upper.py lines
347-359): a read timeout is caught and turned into the string
`"Not Found"`; any other exception propagates (modelled by `Except.error`). -/
def fetch_sponsored_bits (net : NetOutcome) : Except String String :=
  match net with
  | .readTimeout => .ok ("Not Found")
  | .otherException msg => .error msg
  | .response t => .ok t

/-- Embedding of `add_sponsor_video_filter` (src/speeder_upper.py lines
362-387).  `parseJson` models `json.loads` followed by the `x["segment"]`
extraction; `none` is a `json.decoder.JSONDecodeError`, which the source
catches, returning the two streams untouched. -/
def add_sponsor_video_filter (parseJson : String → Option (List SBSegment))
    (video_stream : VTrack) (audio_stream : ATrack) (net : NetOutcome)
    (total_duration : ℚ) : Except String (VTrack × ATrack) :=
  match fetch_sponsored_bits net with
  | .error e => .error e
  | .ok sponsored_segment_response =>
    if sponsored_segment_response = ("Not Found") then
      .ok (video_stream, audio_stream)
    else
      match parseJson sponsored_segment_response with
      | none => .ok (video_stream, audio_stream)
      | some segs =>
        let segments_to_keep := find_worthwhile_clips segs total_duration
        .ok (trim_video video_stream segments_to_keep,
             trim_audio audio_stream segments_to_keep)

/-- Constant from src/speeder_upper.py line 23. -/
def SPEED_FACTOR : ℚ := 2.5

/-- Constant from src/speeder_upper.py line 21. -/
def MAX_OUTPUT_FRAME_RATE : ℚ := 60

/-- Constant from src/speeder_upper.py line 18. -/
def MAX_HEIGHT : Nat := 1080

/-- Constant from src/speeder_upper.py line 19. -/
def MAX_WIDTH : Nat := 1920

/-- Frame rate handed to the selected codec, from `encode_videos`
(src/speeder_upper.py lines 483-485). -/
def output_framerate (source_frame_rate : ℚ) : ℚ :=
  min (SPEED_FACTOR * source_frame_rate) MAX_OUTPUT_FRAME_RATE

/-- Track-building part of one `encode_videos` iteration
(src/speeder_upper.py lines 467-479): sponsor trim, then speed-up of the
video timestamps, conditional downscale, and the audio tempo filter. -/
def pipeline_tracks (parseJson : String → Option (List SBSegment))
    (net : NetOutcome) (total_length : ℚ) (new_height new_width : Nat) :
    Except String (VTrack × ATrack) :=
  match add_sponsor_video_filter parseJson VTrack.input ATrack.input net
      total_length with
  | .error e => .error e
  | .ok (v1, a1) =>
    let v2 := VTrack.setpts v1 ("PTS/2.5")
    let v3 := if new_height > MAX_HEIGHT ∨ new_width > MAX_WIDTH then
        VTrack.scale v2 MAX_WIDTH MAX_HEIGHT
      else v2
    let a2 := ATrack.atempo a1 SPEED_FACTOR
    .ok (v3, a2)

lemma sortSegs_perm (l : List (ℚ × ℚ)) : (sortSegs l).Perm l :=
  List.perm_insertionSort segLE l

lemma sortSegs_sorted (l : List (ℚ × ℚ)) : List.Sorted segLE (sortSegs l) :=
  List.sorted_insertionSort segLE l

lemma mem_sortSegs {p : ℚ × ℚ} {l : List (ℚ × ℚ)} : p ∈ sortSegs l ↔ p ∈ l :=
  (sortSegs_perm l).mem_iff

lemma sortSegs_pairwise_fst (l : List (ℚ × ℚ)) :
    List.Pairwise (fun a b : ℚ × ℚ => a.1 ≤ b.1) (sortSegs l) := by
  refine (sortSegs_sorted l).imp ?_
  intro a b h
  rcases h with h | ⟨h, h2⟩
  · exact h.le
  · exact h.le

lemma covered_sortSegs {l : List (ℚ × ℚ)} {t : ℚ} :
    covered (sortSegs l) t ↔ covered l t := by
  unfold covered
  constructor <;> rintro ⟨p, hp, h⟩
  · exact ⟨p, mem_sortSegs.mp hp, h⟩
  · exact ⟨p, mem_sortSegs.mpr hp, h⟩

lemma sweepClips_pos :
    ∀ {L : List (ℚ × ℚ)} {c T : ℚ}, ∀ p ∈ sweepClips c L T, p.1 < p.2 := by
  intro L
  induction L with
  | nil =>
    intro c T p hp
    by_cases hcT : c < T
    · simp [sweepClips, hcT] at hp
      subst hp
      simpa using hcT
    · simp [sweepClips, hcT] at hp
  | cons q rest ih =>
    obtain ⟨s, e⟩ := q
    intro c T p hp
    by_cases hsc : s > c
    · simp only [sweepClips, if_pos hsc, List.mem_cons] at hp
      rcases hp with rfl | hp
      · simpa using hsc
      · exact ih p hp
    · simp only [sweepClips, if_neg hsc] at hp
      exact ih p hp

lemma sweepClips_fst_mem :
    ∀ {L : List (ℚ × ℚ)} {c T : ℚ}, ∀ p ∈ sweepClips c L T,
      p.1 = c ∨ ∃ q ∈ L, p.1 = q.2 := by
  intro L
  induction L with
  | nil =>
    intro c T p hp
    by_cases hcT : c < T
    · simp [sweepClips, hcT] at hp
      subst hp
      exact Or.inl rfl
    · simp [sweepClips, hcT] at hp
  | cons q rest ih =>
    obtain ⟨s, e⟩ := q
    intro c T p hp
    by_cases hsc : s > c
    · simp only [sweepClips, if_pos hsc, List.mem_cons] at hp
      rcases hp with rfl | hp
      · exact Or.inl rfl
      · rcases ih p hp with h | ⟨q, hq, h⟩
        · exact Or.inr ⟨(s, e), List.mem_cons_self _ _, h⟩
        · exact Or.inr ⟨q, List.mem_cons_of_mem _ hq, h⟩
    · simp only [sweepClips, if_neg hsc] at hp
      rcases ih p hp with h | ⟨q, hq, h⟩
      · exact Or.inr ⟨(s, e), List.mem_cons_self _ _, h⟩
      · exact Or.inr ⟨q, List.mem_cons_of_mem _ hq, h⟩

lemma sweepClips_chain :
    ∀ {L : List (ℚ × ℚ)} {c T : ℚ},
      List.Pairwise (fun a b : ℚ × ℚ => a.1 ≤ b.1) L →
      (∀ q ∈ L, q.1 ≤ q.2) →
      List.Chain' (fun p q : ℚ × ℚ => p.2 ≤ q.1) (sweepClips c L T) := by
  intro L
  induction L with
  | nil =>
    intro c T _ _
    by_cases hcT : c < T <;> simp [sweepClips, hcT]
  | cons q rest ih =>
    obtain ⟨s, e⟩ := q
    intro c T hsort hse
    have hsort' := (List.pairwise_cons.mp hsort).2
    have hse' : ∀ q ∈ rest, q.1 ≤ q.2 :=
      fun q hq => hse q (List.mem_cons_of_mem _ hq)
    by_cases hsc : s > c
    · rw [show sweepClips c ((s, e) :: rest) T =
          (c, s) :: sweepClips e rest T from by simp [sweepClips, hsc]]
      refine List.chain'_cons'.mpr ⟨?_, ih hsort' hse'⟩
      intro y hy
      have hymem : y ∈ sweepClips e rest T := List.mem_of_mem_head? hy
      rcases sweepClips_fst_mem y hymem with h | ⟨q, hq, h⟩
      · show s ≤ y.1
        rw [h]
        exact hse (s, e) (List.mem_cons_self _ _)
      · show s ≤ y.1
        rw [h]
        exact ((List.pairwise_cons.mp hsort).1 q hq).trans (hse' q hq)
    · rw [show sweepClips c ((s, e) :: rest) T =
          sweepClips e rest T from by simp [sweepClips, hsc]]
      exact ih hsort' hse'

lemma sweepClips_bounds :
    ∀ {L : List (ℚ × ℚ)} {c T : ℚ}, 0 ≤ c →
      (∀ q ∈ L, 0 ≤ q.1 ∧ q.1 ≤ q.2 ∧ q.1 ≤ T) →
      ∀ p ∈ sweepClips c L T, 0 ≤ p.1 ∧ p.2 ≤ T := by
  intro L
  induction L with
  | nil =>
    intro c T hc _ p hp
    by_cases hcT : c < T
    · simp [sweepClips, hcT] at hp
      subst hp
      exact ⟨hc, le_refl _⟩
    · simp [sweepClips, hcT] at hp
  | cons q rest ih =>
    obtain ⟨s, e⟩ := q
    intro c T hc hq p hp
    have hhd := hq (s, e) (List.mem_cons_self _ _)
    have he : (0 : ℚ) ≤ e := hhd.1.trans hhd.2.1
    have hrest : ∀ q ∈ rest, 0 ≤ q.1 ∧ q.1 ≤ q.2 ∧ q.1 ≤ T :=
      fun q hqm => hq q (List.mem_cons_of_mem _ hqm)
    by_cases hsc : s > c
    · simp only [sweepClips, if_pos hsc, List.mem_cons] at hp
      rcases hp with rfl | hp
      · exact ⟨hc, hhd.2.2⟩
      · exact ih he hrest p hp
    · simp only [sweepClips, if_neg hsc] at hp
      exact ih he hrest p hp

lemma sweepClipsMax_fst_ge :
    ∀ {L : List (ℚ × ℚ)} {c T : ℚ}, ∀ p ∈ sweepClipsMax c L T, c ≤ p.1 := by
  intro L
  induction L with
  | nil =>
    intro c T p hp
    by_cases hcT : c < T
    · simp [sweepClipsMax, hcT] at hp
      subst hp
      exact le_refl _
    · simp [sweepClipsMax, hcT] at hp
  | cons q rest ih =>
    obtain ⟨s, e⟩ := q
    intro c T p hp
    by_cases hsc : s > c
    · simp only [sweepClipsMax, if_pos hsc, qmax_eq_max, List.mem_cons] at hp
      rcases hp with rfl | hp
      · exact le_refl _
      · exact (le_max_left c e).trans (ih p hp)
    · simp only [sweepClipsMax, if_neg hsc, qmax_eq_max] at hp
      exact (le_max_left c e).trans (ih p hp)

lemma sweepClipsMax_pos :
    ∀ {L : List (ℚ × ℚ)} {c T : ℚ}, ∀ p ∈ sweepClipsMax c L T, p.1 < p.2 := by
  intro L
  induction L with
  | nil =>
    intro c T p hp
    by_cases hcT : c < T
    · simp [sweepClipsMax, hcT] at hp
      subst hp
      simpa using hcT
    · simp [sweepClipsMax, hcT] at hp
  | cons q rest ih =>
    obtain ⟨s, e⟩ := q
    intro c T p hp
    by_cases hsc : s > c
    · simp only [sweepClipsMax, if_pos hsc, List.mem_cons] at hp
      rcases hp with rfl | hp
      · simpa using hsc
      · exact ih p hp
    · simp only [sweepClipsMax, if_neg hsc] at hp
      exact ih p hp

lemma sweepClipsMax_chain :
    ∀ {L : List (ℚ × ℚ)} {c T : ℚ},
      (∀ q ∈ L, q.1 ≤ q.2) →
      List.Chain' (fun p q : ℚ × ℚ => p.2 ≤ q.1) (sweepClipsMax c L T) := by
  intro L
  induction L with
  | nil =>
    intro c T _
    by_cases hcT : c < T <;> simp [sweepClipsMax, hcT]
  | cons q rest ih =>
    obtain ⟨s, e⟩ := q
    intro c T hse
    have hse' : ∀ q ∈ rest, q.1 ≤ q.2 :=
      fun q hq => hse q (List.mem_cons_of_mem _ hq)
    by_cases hsc : s > c
    · rw [show sweepClipsMax c ((s, e) :: rest) T =
          (c, s) :: sweepClipsMax (max c e) rest T from by
        simp [sweepClipsMax, hsc, qmax_eq_max]]
      refine List.chain'_cons'.mpr ⟨?_, ih hse'⟩
      intro y hy
      have hymem : y ∈ sweepClipsMax (max c e) rest T := List.mem_of_mem_head? hy
      have h1 : max c e ≤ y.1 := sweepClipsMax_fst_ge y hymem
      have h2 : s ≤ e := hse (s, e) (List.mem_cons_self _ _)
      exact (h2.trans (le_max_right c e)).trans h1
    · rw [show sweepClipsMax c ((s, e) :: rest) T =
          sweepClipsMax (max c e) rest T from by simp [sweepClipsMax, hsc, qmax_eq_max]]
      exact ih hse'

lemma sweepClipsMax_mem_iff :
    ∀ {L : List (ℚ × ℚ)} {c T : ℚ},
      List.Pairwise (fun a b : ℚ × ℚ => a.1 ≤ b.1) L →
      (∀ q ∈ L, q.1 ≤ q.2) → (∀ q ∈ L, q.1 ≤ T) →
      ∀ t : ℚ, (∃ p ∈ sweepClipsMax c L T, p.1 ≤ t ∧ t < p.2) ↔
        (c ≤ t ∧ t < T ∧ ¬ covered L t) := by
  intro L
  induction L with
  | nil =>
    intro c T _ _ _ t
    constructor
    · rintro ⟨p, hp, h1, h2⟩
      by_cases hcT : c < T
      · simp [sweepClipsMax, hcT] at hp
        subst hp
        exact ⟨h1, h2, by simp [covered]⟩
      · simp [sweepClipsMax, hcT] at hp
    · rintro ⟨h1, h2, _⟩
      have hcT : c < T := lt_of_le_of_lt h1 h2
      exact ⟨(c, T), by simp [sweepClipsMax, hcT], h1, h2⟩
  | cons q rest ih =>
    obtain ⟨s, e⟩ := q
    intro c T hsort hse hsT t
    have hsort' := (List.pairwise_cons.mp hsort).2
    have hfst := (List.pairwise_cons.mp hsort).1
    have hse' : ∀ q ∈ rest, q.1 ≤ q.2 :=
      fun q hq => hse q (List.mem_cons_of_mem _ hq)
    have hsT' : ∀ q ∈ rest, q.1 ≤ T :=
      fun q hq => hsT q (List.mem_cons_of_mem _ hq)
    have hseh : s ≤ e := hse (s, e) (List.mem_cons_self _ _)
    have hsTh : s ≤ T := hsT (s, e) (List.mem_cons_self _ _)
    have ihr := fun c => ih (c := c) hsort' hse' hsT' t
    have hcovc : covered ((s, e) :: rest) t ↔ (s ≤ t ∧ t < e) ∨ covered rest t := by
      simp [covered]
    by_cases hsc : s > c
    · rw [show sweepClipsMax c ((s, e) :: rest) T =
          (c, s) :: sweepClipsMax (max c e) rest T from by
        simp [sweepClipsMax, hsc, qmax_eq_max]]
      constructor
      · rintro ⟨p, hp, h1, h2⟩
        rcases List.mem_cons.mp hp with rfl | hp
        · refine ⟨h1, lt_of_lt_of_le h2 hsTh, ?_⟩
          rw [hcovc]
          rintro (⟨hst, _⟩ | ⟨p, hpm, hpt, _⟩)
          · exact absurd (lt_of_le_of_lt hst h2) (lt_irrefl _)
          · exact absurd (lt_of_le_of_lt ((hfst p hpm).trans hpt) h2) (lt_irrefl _)
        · obtain ⟨hmt, htT, hncov⟩ := (ihr (max c e)).mp ⟨p, hp, h1, h2⟩
          refine ⟨(le_max_left c e).trans hmt, htT, ?_⟩
          rw [hcovc]
          rintro (⟨_, hte⟩ | hcov)
          · exact absurd (lt_of_le_of_lt ((le_max_right c e).trans hmt) hte)
              (lt_irrefl _)
          · exact hncov hcov
      · rintro ⟨hct, htT, hncov⟩
        rw [hcovc] at hncov
        by_cases hts : t < s
        · exact ⟨(c, s), List.mem_cons_self _ _, hct, hts⟩
        · push_neg at hts
          have hte : e ≤ t := by
            by_contra hlt
            push_neg at hlt
            exact hncov (Or.inl ⟨hts, hlt⟩)
          obtain ⟨p, hp, h1, h2⟩ := (ihr (max c e)).mpr
            ⟨max_le hct hte, htT, fun h => hncov (Or.inr h)⟩
          exact ⟨p, List.mem_cons_of_mem _ hp, h1, h2⟩
    · rw [show sweepClipsMax c ((s, e) :: rest) T =
          sweepClipsMax (max c e) rest T from by simp [sweepClipsMax, hsc, qmax_eq_max]]
      push_neg at hsc
      constructor
      · rintro ⟨p, hp, h1, h2⟩
        obtain ⟨hmt, htT, hncov⟩ := (ihr (max c e)).mp ⟨p, hp, h1, h2⟩
        refine ⟨(le_max_left c e).trans hmt, htT, ?_⟩
        rw [hcovc]
        rintro (⟨_, hte⟩ | hcov)
        · exact absurd (lt_of_le_of_lt ((le_max_right c e).trans hmt) hte)
            (lt_irrefl _)
        · exact hncov hcov
      · rintro ⟨hct, htT, hncov⟩
        rw [hcovc] at hncov
        have hte : e ≤ t := by
          by_contra hlt
          push_neg at hlt
          exact hncov (Or.inl ⟨hsc.trans hct, hlt⟩)
        exact (ihr (max c e)).mpr
          ⟨max_le hct hte, htT, fun h => hncov (Or.inr h)⟩

lemma sweepClipsMax_bounds :
    ∀ {L : List (ℚ × ℚ)} {c T : ℚ}, 0 ≤ c →
      (∀ q ∈ L, 0 ≤ q.1 ∧ q.1 ≤ q.2 ∧ q.1 ≤ T) →
      ∀ p ∈ sweepClipsMax c L T, 0 ≤ p.1 ∧ p.2 ≤ T := by
  intro L
  induction L with
  | nil =>
    intro c T hc _ p hp
    by_cases hcT : c < T
    · simp [sweepClipsMax, hcT] at hp
      subst hp
      exact ⟨hc, le_refl _⟩
    · simp [sweepClipsMax, hcT] at hp
  | cons q rest ih =>
    obtain ⟨s, e⟩ := q
    intro c T hc hq p hp
    have hhd := hq (s, e) (List.mem_cons_self _ _)
    have hmax : (0 : ℚ) ≤ max c e := hc.trans (le_max_left c e)
    have hrest : ∀ q ∈ rest, 0 ≤ q.1 ∧ q.1 ≤ q.2 ∧ q.1 ≤ T :=
      fun q hqm => hq q (List.mem_cons_of_mem _ hqm)
    by_cases hsc : s > c
    · simp only [sweepClipsMax, if_pos hsc, qmax_eq_max, List.mem_cons] at hp
      rcases hp with rfl | hp
      · exact ⟨hc, hhd.2.2⟩
      · exact ih hmax hrest p hp
    · simp only [sweepClipsMax, if_neg hsc, qmax_eq_max] at hp
      exact ih hmax hrest p hp

lemma keepSum_nonneg {L : List (ℚ × ℚ)} (h : ∀ p ∈ L, p.1 ≤ p.2) :
    0 ≤ keepSum L := by
  unfold keepSum
  refine List.sum_nonneg ?_
  intro x hx
  obtain ⟨p, hp, rfl⟩ := List.mem_map.mp hx
  exact sub_nonneg.mpr (h p hp)

lemma keepSum_le_chain :
    ∀ {L : List (ℚ × ℚ)} {a T : ℚ},
      List.Chain' (fun p q : ℚ × ℚ => p.2 ≤ q.1) L →
      (∀ p ∈ L, p.1 ≤ p.2 ∧ p.2 ≤ T) →
      (∀ p ∈ L.head?, a ≤ p.1) → a ≤ T →
      keepSum L ≤ T - a := by
  intro L
  induction L with
  | nil =>
    intro a T _ _ _ haT
    simp only [keepSum, List.map_nil, List.sum_nil]
    linarith
  | cons p rest ih =>
    intro a T hch hin hhd haT
    obtain ⟨hhd', hch'⟩ := List.chain'_cons'.mp hch
    have hp := hin p (List.mem_cons_self _ _)
    have hap : a ≤ p.1 := hhd p rfl
    have hrest : keepSum rest ≤ T - p.2 :=
      ih hch' (fun q hq => hin q (List.mem_cons_of_mem _ hq)) hhd' hp.2
    have hsum : keepSum (p :: rest) = (p.2 - p.1) + keepSum rest := by
      simp [keepSum]
    rw [hsum]
    linarith

lemma sweepClips_eq_max :
    ∀ {L : List (ℚ × ℚ)} {c T : ℚ},
      (∀ q ∈ L, q.1 ≤ q.2) →
      List.Chain' (fun a b : ℚ × ℚ => a.2 ≤ b.2) L →
      (∀ q ∈ L.head?, c ≤ q.2) →
      sweepClips c L T = sweepClipsMax c L T := by
  intro L
  induction L with
  | nil =>
    intro c T _ _ _
    simp [sweepClips, sweepClipsMax]
  | cons q rest ih =>
    obtain ⟨s, e⟩ := q
    intro c T hse hch hhd
    have hce : c ≤ e := hhd (s, e) rfl
    have hmax : max c e = e := max_eq_right hce
    have hse' : ∀ q ∈ rest, q.1 ≤ q.2 :=
      fun q hq => hse q (List.mem_cons_of_mem _ hq)
    obtain ⟨hhd', hch'⟩ := List.chain'_cons'.mp hch
    by_cases hsc : s > c
    · rw [show sweepClips c ((s, e) :: rest) T =
          (c, s) :: sweepClips e rest T from by simp [sweepClips, hsc]]
      rw [show sweepClipsMax c ((s, e) :: rest) T =
          (c, s) :: sweepClipsMax (max c e) rest T from by
        simp [sweepClipsMax, hsc, qmax_eq_max]]
      rw [hmax]
      exact congrArg _ (ih hse' hch' hhd')
    · rw [show sweepClips c ((s, e) :: rest) T =
          sweepClips e rest T from by simp [sweepClips, hsc]]
      rw [show sweepClipsMax c ((s, e) :: rest) T =
          sweepClipsMax (max c e) rest T from by simp [sweepClipsMax, hsc, qmax_eq_max]]
      rw [hmax]
      exact ih hse' hch' hhd'

lemma find_eq_compute (segments : List SBSegment) (T : ℚ)
    (hwf : ∀ q ∈ segments, 0 ≤ q.segment.1 ∧ q.segment.1 ≤ q.segment.2)
    (hch : List.Chain' (fun a b : ℚ × ℚ => a.2 ≤ b.2)
      (sortSegs (segments.map (fun x => x.segment)))) :
    find_worthwhile_clips segments T =
      compute_keep_intervals (segments.map (fun x => x.segment)) T := by
  unfold find_worthwhile_clips compute_keep_intervals
  have hwf' : ∀ q ∈ sortSegs (segments.map (fun x => x.segment)),
      0 ≤ q.1 ∧ q.1 ≤ q.2 := by
    intro q hq
    obtain ⟨x, hx, rfl⟩ := List.mem_map.mp (mem_sortSegs.mp hq)
    exact hwf x hx
  refine sweepClips_eq_max (fun q hq => (hwf' q hq).2) hch ?_
  intro q hq
  have hqm := List.mem_of_mem_head? hq
  exact ((hwf' q hqm).1.trans (hwf' q hqm).2)

lemma chain_ends_spec_example : List.Chain' (fun a b : ℚ × ℚ => a.2 ≤ b.2)
    (sortSegs (List.map (fun x => x.segment)
      [SBSegment.mk (10, 20) ("sponsor"), SBSegment.mk (50, 55) ("sponsor")])) := by
  rw [show sortSegs (List.map (fun x => x.segment)
      [SBSegment.mk (10, 20) ("sponsor"), SBSegment.mk (50, 55) ("sponsor")]) =
      [(10, 20), (50, 55)] from by decide]
  norm_num [List.chain'_cons]

lemma chain_ends_overlap_example : List.Chain' (fun a b : ℚ × ℚ => a.2 ≤ b.2)
    (sortSegs (List.map (fun x => x.segment)
      [SBSegment.mk (0, 4) ("sponsor"), SBSegment.mk (3, 10) ("sponsor")])) := by
  rw [show sortSegs (List.map (fun x => x.segment)
      [SBSegment.mk (0, 4) ("sponsor"), SBSegment.mk (3, 10) ("sponsor")]) =
      [(0, 4), (3, 10)] from by decide]
  norm_num [List.chain'_cons]

/-- Claim C3: for total_duration ≥ 0 and unwanted intervals each with
start ≤ end, the keep intervals returned by `find_worthwhile_clips` are
strictly increasing and non-overlapping: every returned interval has
strictly positive length, and the end of each returned interval is at most
the start of the next. -/
theorem claim_C3 (segments : List SBSegment) (total_duration : ℚ)
    (htot : 0 ≤ total_duration)
    (hwf : ∀ q ∈ segments, q.segment.1 ≤ q.segment.2) :
    List.Chain' (fun p q : ℚ × ℚ => p.2 ≤ q.1)
      (find_worthwhile_clips segments total_duration) ∧
    ∀ p ∈ find_worthwhile_clips segments total_duration, p.1 < p.2 := by
  constructor
  · refine sweepClips_chain (sortSegs_pairwise_fst _) ?_
    intro q hq
    obtain ⟨x, hx, rfl⟩ := List.mem_map.mp (mem_sortSegs.mp hq)
    exact hwf x hx
  · exact fun p hp => sweepClips_pos p hp

/-- Witness for C3 at the spec's overlapping-segments example:
unwanted `[(2,5), (4,8)]`, duration 10. -/
theorem claim_C3_witness :
    ((0 : ℚ) ≤ 10 ∧
      ∀ q ∈ [SBSegment.mk (2, 5) ("sponsor"), SBSegment.mk (4, 8) ("sponsor")],
        q.segment.1 ≤ q.segment.2) ∧
    (List.Chain' (fun p q : ℚ × ℚ => p.2 ≤ q.1)
      (find_worthwhile_clips
        [SBSegment.mk (2, 5) ("sponsor"), SBSegment.mk (4, 8) ("sponsor")] 10) ∧
    ∀ p ∈ find_worthwhile_clips
        [SBSegment.mk (2, 5) ("sponsor"), SBSegment.mk (4, 8) ("sponsor")] 10,
      p.1 < p.2) :=
  ⟨⟨by decide, by decide⟩,
    claim_C3 [SBSegment.mk (2, 5) ("sponsor"), SBSegment.mk (4, 8) ("sponsor")]
      10 (by decide) (by decide)⟩

/-- Claim C6: the frame rate handed to the encoder is
`min(speed_factor * source_frame_rate, max_output_frame_rate)` with
speed factor 2.5 and frame-rate cap 60. -/
theorem claim_C6 (source_frame_rate : ℚ) (hf : 0 ≤ source_frame_rate) :
    output_framerate source_frame_rate = min (2.5 * source_frame_rate) 60 := rfl

/-- Witness for C6 at a 24 fps source. -/
theorem claim_C6_witness :
    (0 : ℚ) ≤ 24 ∧ output_framerate 24 = min (2.5 * 24) 60 :=
  ⟨by decide, claim_C6 24 (by decide)⟩

/-- Claim C7: the result of `find_worthwhile_clips` is invariant under
permutation of the input segment list. -/
theorem claim_C7 (segs1 segs2 : List SBSegment) (total_duration : ℚ)
    (hperm : segs1.Perm segs2) :
    find_worthwhile_clips segs1 total_duration =
      find_worthwhile_clips segs2 total_duration := by
  have hsort : sortSegs (segs1.map (fun x => x.segment)) =
      sortSegs (segs2.map (fun x => x.segment)) :=
    List.eq_of_perm_of_sorted
      ((sortSegs_perm _).trans (((hperm.map _)).trans (sortSegs_perm _).symm))
      (sortSegs_sorted _) (sortSegs_sorted _)
  unfold find_worthwhile_clips
  rw [hsort]

/-- Witness for C7 at the spec's out-of-order example: `[(6,7), (1,3)]`
with duration 10 gives the same output as `[(1,3), (6,7)]`, namely
`[(0,1), (3,6), (7,10)]`. -/
theorem claim_C7_witness :
    (List.Perm [SBSegment.mk (6, 7) ("sponsor"), SBSegment.mk (1, 3) ("sponsor")]
      [SBSegment.mk (1, 3) ("sponsor"), SBSegment.mk (6, 7) ("sponsor")]) ∧
    find_worthwhile_clips
      [SBSegment.mk (6, 7) ("sponsor"), SBSegment.mk (1, 3) ("sponsor")] 10 =
      [(0, 1), (3, 6), (7, 10)] ∧
    find_worthwhile_clips
      [SBSegment.mk (1, 3) ("sponsor"), SBSegment.mk (6, 7) ("sponsor")] 10 =
      [(0, 1), (3, 6), (7, 10)] :=
  ⟨by decide, by decide,
    (claim_C7 [SBSegment.mk (6, 7) ("sponsor"), SBSegment.mk (1, 3) ("sponsor")]
      [SBSegment.mk (1, 3) ("sponsor"), SBSegment.mk (6, 7) ("sponsor")] 10
      (by decide)).symm.trans (by decide)⟩

/-- Counterexample to C8 as stated: with no unwanted segments and
total_duration = 0 (which satisfies total_duration ≥ 0), the function
returns `[]`, not the single keep interval `(0, 0)`. -/
theorem claim_C8_counterexample :
    find_worthwhile_clips [] 0 = [] ∧
    find_worthwhile_clips [] 0 ≠ [((0 : ℚ), (0 : ℚ))] := by
  constructor
  · decide
  · decide

/-- Claim C8 (amended): for every total_duration strictly greater than 0,
`find_worthwhile_clips` on an empty unwanted list returns exactly the
single keep interval `(0, total_duration)`; at total_duration = 0 it
returns the empty list. -/
theorem claim_C8_amended (total_duration : ℚ) (htot : 0 < total_duration) :
    find_worthwhile_clips [] total_duration = [(0, total_duration)] := by
  unfold find_worthwhile_clips sortSegs
  simp [List.insertionSort, sweepClips, htot]

/-- Witness for the amended C8 at duration 42. -/
theorem claim_C8_witness :
    (0 : ℚ) < 42 ∧ find_worthwhile_clips [] 42 = [(0, 42)] :=
  ⟨by decide, claim_C8_amended 42 (by decide)⟩

/-- Counterexample to C9 as stated: an unwanted segment lying entirely
beyond total_duration is not clipped.  With unwanted `(25, 30)` and
duration 20 the function returns `[(0, 25)]`, whose end exceeds 20. -/
theorem claim_C9_counterexample :
    find_worthwhile_clips [SBSegment.mk (25, 30) ("sponsor")] 20 = [(0, 25)] ∧
    ∃ p ∈ find_worthwhile_clips [SBSegment.mk (25, 30) ("sponsor")] 20,
      ¬ (0 ≤ p.1 ∧ p.2 ≤ 20) := by
  constructor
  · decide
  · decide

/-- Claim C9 (amended): if every unwanted interval satisfies
0 ≤ start ≤ end and starts no later than total_duration, then every keep
interval returned by `find_worthwhile_clips` is contained in
`[0, total_duration]` (the excess of unwanted segments past
total_duration is clipped implicitly). -/
theorem claim_C9_amended (segments : List SBSegment) (total_duration : ℚ)
    (hwf : ∀ q ∈ segments, 0 ≤ q.segment.1 ∧ q.segment.1 ≤ q.segment.2 ∧
      q.segment.1 ≤ total_duration) :
    ∀ p ∈ find_worthwhile_clips segments total_duration,
      0 ≤ p.1 ∧ p.2 ≤ total_duration := by
  intro p hp
  refine sweepClips_bounds (le_refl (0 : ℚ)) ?_ p hp
  intro q hq
  obtain ⟨x, hx, rfl⟩ := List.mem_map.mp (mem_sortSegs.mp hq)
  exact hwf x hx

/-- Witness for the amended C9: unwanted `(15, 25)` partially exceeding
duration 20 yields the keep interval `(0, 15)`, inside `[0, 20]`. -/
theorem claim_C9_witness :
    (∀ q ∈ [SBSegment.mk (15, 25) ("sponsor")],
      0 ≤ q.segment.1 ∧ q.segment.1 ≤ q.segment.2 ∧ q.segment.1 ≤ (20 : ℚ)) ∧
    (0 ≤ ((0 : ℚ), (15 : ℚ)).1 ∧ ((0 : ℚ), (15 : ℚ)).2 ≤ (20 : ℚ)) :=
  ⟨by decide,
    claim_C9_amended [SBSegment.mk (15, 25) ("sponsor")] 20 (by decide)
      ((0 : ℚ), (15 : ℚ)) (by decide)⟩

/-- Counterexample to C1 as stated: with nested unwanted segments the
cursor is set plainly to the inner segment's end (the code has no `max`),
so part of an unwanted interval is re-emitted.  For unwanted
`[(1,10), (2,3)]` and duration 20 the code returns `[(0,1), (3,20)]` with
summed length 18, while the duration minus the measure of the unwanted
union (which is 9) is 11. -/
theorem claim_C1_counterexample :
    find_worthwhile_clips
      [SBSegment.mk (1, 10) ("sponsor"), SBSegment.mk (2, 3) ("sponsor")] 20 =
      [(0, 1), (3, 20)] ∧
    unionMeasure [(1, 10), (2, 3)] 20 = 9 ∧
    keepSum (find_worthwhile_clips
      [SBSegment.mk (1, 10) ("sponsor"), SBSegment.mk (2, 3) ("sponsor")] 20) ≠
      20 - unionMeasure [(1, 10), (2, 3)] 20 := by
  have hcomp : compute_keep_intervals [(1, 10), (2, 3)] 20 = [(0, 1), (10, 20)] := by
    decide
  refine ⟨by decide, ?_, ?_⟩
  · simp only [unionMeasure, hcomp]
    norm_num [keepSum]
  · rw [show find_worthwhile_clips
        [SBSegment.mk (1, 10) ("sponsor"), SBSegment.mk (2, 3) ("sponsor")] 20 =
        [(0, 1), (3, 20)] from by decide]
    simp only [unionMeasure, hcomp]
    norm_num [keepSum]

/-- Claim C1 (amended): for total_duration ≥ 0 and unwanted intervals each
satisfying 0 ≤ start ≤ end and start ≤ total_duration, with no interval
nested strictly inside an earlier one (after sorting, the ends are
non-decreasing), the code's sweep agrees with the spec's max-cursor sweep
and the summed keep length equals total_duration minus the measure of the
union of the unwanted intervals clipped to `[0, total_duration]`.  The
measure reading of `unionMeasure` is certified inside the theorem: the
reference complement intervals are pairwise disjoint, of positive length,
contained in `[0, total_duration]`, contain exactly the points of
`[0, total_duration)` covered by no unwanted interval, and the measure
value lies between 0 and total_duration. -/
theorem claim_C1_amended (segments : List SBSegment) (total_duration : ℚ)
    (htot : 0 ≤ total_duration)
    (hwf : ∀ q ∈ segments, 0 ≤ q.segment.1 ∧ q.segment.1 ≤ q.segment.2 ∧
      q.segment.1 ≤ total_duration)
    (hnest : List.Chain' (fun a b : ℚ × ℚ => a.2 ≤ b.2)
      (sortSegs (segments.map (fun x => x.segment)))) :
    find_worthwhile_clips segments total_duration =
      compute_keep_intervals (segments.map (fun x => x.segment))
        total_duration ∧
    keepSum (find_worthwhile_clips segments total_duration) =
      total_duration -
        unionMeasure (segments.map (fun x => x.segment)) total_duration ∧
    (∀ t : ℚ,
      (∃ p ∈ compute_keep_intervals (segments.map (fun x => x.segment))
          total_duration, p.1 ≤ t ∧ t < p.2) ↔
      (0 ≤ t ∧ t < total_duration ∧
        ¬ covered (segments.map (fun x => x.segment)) t)) ∧
    List.Chain' (fun p q : ℚ × ℚ => p.2 ≤ q.1)
      (compute_keep_intervals (segments.map (fun x => x.segment))
        total_duration) ∧
    (∀ p ∈ compute_keep_intervals (segments.map (fun x => x.segment))
        total_duration, p.1 < p.2 ∧ 0 ≤ p.1 ∧ p.2 ≤ total_duration) ∧
    0 ≤ unionMeasure (segments.map (fun x => x.segment)) total_duration ∧
    unionMeasure (segments.map (fun x => x.segment)) total_duration ≤
      total_duration := by
  have hwf2 : ∀ q ∈ segments, 0 ≤ q.segment.1 ∧ q.segment.1 ≤ q.segment.2 :=
    fun q hq => ⟨(hwf q hq).1, (hwf q hq).2.1⟩
  have heq := find_eq_compute segments total_duration hwf2 hnest
  have hs0 : ∀ q ∈ sortSegs (segments.map (fun x => x.segment)),
      0 ≤ q.1 ∧ q.1 ≤ q.2 ∧ q.1 ≤ total_duration := by
    intro q hq
    obtain ⟨x, hx, rfl⟩ := List.mem_map.mp (mem_sortSegs.mp hq)
    exact hwf x hx
  have hse : ∀ q ∈ sortSegs (segments.map (fun x => x.segment)),
      q.1 ≤ q.2 := fun q hq => (hs0 q hq).2.1
  have hsT : ∀ q ∈ sortSegs (segments.map (fun x => x.segment)),
      q.1 ≤ total_duration := fun q hq => (hs0 q hq).2.2
  have hchain : List.Chain' (fun p q : ℚ × ℚ => p.2 ≤ q.1)
      (compute_keep_intervals (segments.map (fun x => x.segment))
        total_duration) := sweepClipsMax_chain hse
  have hbounds : ∀ p ∈ compute_keep_intervals
      (segments.map (fun x => x.segment)) total_duration,
      0 ≤ p.1 ∧ p.2 ≤ total_duration :=
    fun p hp => sweepClipsMax_bounds (le_refl (0 : ℚ)) hs0 p hp
  have hpos : ∀ p ∈ compute_keep_intervals
      (segments.map (fun x => x.segment)) total_duration, p.1 < p.2 :=
    fun p hp => sweepClipsMax_pos p hp
  have hksle : keepSum (compute_keep_intervals
      (segments.map (fun x => x.segment)) total_duration) ≤
      total_duration - 0 := by
    refine keepSum_le_chain hchain ?_ ?_ htot
    · exact fun p hp => ⟨(hpos p hp).le, (hbounds p hp).2⟩
    · exact fun p hp => (hbounds p (List.mem_of_mem_head? hp)).1
  have hksnn : 0 ≤ keepSum (compute_keep_intervals
      (segments.map (fun x => x.segment)) total_duration) :=
    keepSum_nonneg (fun p hp => (hpos p hp).le)
  refine ⟨heq, ?_, ?_, hchain, ?_, ?_, ?_⟩
  · rw [heq]
    unfold unionMeasure
    rw [sub_sub_cancel]
  · intro t
    rw [show compute_keep_intervals (segments.map (fun x => x.segment))
        total_duration =
      sweepClipsMax 0 (sortSegs (segments.map (fun x => x.segment)))
        total_duration from rfl]
    rw [sweepClipsMax_mem_iff (sortSegs_pairwise_fst _) hse hsT t]
    rw [covered_sortSegs]
  · exact fun p hp => ⟨hpos p hp, hbounds p hp⟩
  · unfold unionMeasure
    linarith
  · unfold unionMeasure
    linarith

/-- Witness for the amended C1 at the spec's end-to-end scenario:
duration 100, unwanted `[(10,20), (50,55)]`. -/
theorem claim_C1_witness :
    ((0 : ℚ) ≤ 100 ∧
      (∀ q ∈ [SBSegment.mk (10, 20) ("sponsor"), SBSegment.mk (50, 55) ("sponsor")],
        0 ≤ q.segment.1 ∧ q.segment.1 ≤ q.segment.2 ∧
          q.segment.1 ≤ (100 : ℚ)) ∧
      List.Chain' (fun a b : ℚ × ℚ => a.2 ≤ b.2)
        (sortSegs (List.map (fun x => x.segment)
          [SBSegment.mk (10, 20) ("sponsor"), SBSegment.mk (50, 55) ("sponsor")]))) ∧
    (find_worthwhile_clips
        [SBSegment.mk (10, 20) ("sponsor"), SBSegment.mk (50, 55) ("sponsor")] 100 =
      compute_keep_intervals
        (List.map (fun x => x.segment)
          [SBSegment.mk (10, 20) ("sponsor"), SBSegment.mk (50, 55) ("sponsor")]) 100 ∧
    keepSum (find_worthwhile_clips
        [SBSegment.mk (10, 20) ("sponsor"), SBSegment.mk (50, 55) ("sponsor")] 100) =
      100 - unionMeasure
        (List.map (fun x => x.segment)
          [SBSegment.mk (10, 20) ("sponsor"), SBSegment.mk (50, 55) ("sponsor")]) 100 ∧
    (∀ t : ℚ,
      (∃ p ∈ compute_keep_intervals
          (List.map (fun x => x.segment)
            [SBSegment.mk (10, 20) ("sponsor"), SBSegment.mk (50, 55) ("sponsor")])
          100, p.1 ≤ t ∧ t < p.2) ↔
      (0 ≤ t ∧ t < 100 ∧
        ¬ covered (List.map (fun x => x.segment)
          [SBSegment.mk (10, 20) ("sponsor"), SBSegment.mk (50, 55) ("sponsor")])
          t)) ∧
    List.Chain' (fun p q : ℚ × ℚ => p.2 ≤ q.1)
      (compute_keep_intervals
        (List.map (fun x => x.segment)
          [SBSegment.mk (10, 20) ("sponsor"), SBSegment.mk (50, 55) ("sponsor")])
        100) ∧
    (∀ p ∈ compute_keep_intervals
        (List.map (fun x => x.segment)
          [SBSegment.mk (10, 20) ("sponsor"), SBSegment.mk (50, 55) ("sponsor")])
        100, p.1 < p.2 ∧ 0 ≤ p.1 ∧ p.2 ≤ 100) ∧
    0 ≤ unionMeasure
      (List.map (fun x => x.segment)
        [SBSegment.mk (10, 20) ("sponsor"), SBSegment.mk (50, 55) ("sponsor")])
      100 ∧
    unionMeasure
      (List.map (fun x => x.segment)
        [SBSegment.mk (10, 20) ("sponsor"), SBSegment.mk (50, 55) ("sponsor")])
      100 ≤ 100) :=
  ⟨⟨by decide, by decide, chain_ends_spec_example⟩,
    claim_C1_amended
      [SBSegment.mk (10, 20) ("sponsor"), SBSegment.mk (50, 55) ("sponsor")] 100
      (by decide) (by decide) chain_ends_spec_example⟩

/-- Counterexample to C2 as stated: the unwanted intervals `[(0,10), (2,3)]`
(one nested in the other) cover `[0, 10]` entirely, yet the function
returns the non-empty list `[(3, 10)]`, because the cursor falls back from
10 to 3 when the nested segment is processed. -/
theorem claim_C2_counterexample :
    (∀ t : ℚ, 0 ≤ t → t < 10 → covered [(0, 10), (2, 3)] t) ∧
    find_worthwhile_clips
      [SBSegment.mk (0, 10) ("sponsor"), SBSegment.mk (2, 3) ("sponsor")] 10 =
      [(3, 10)] ∧
    find_worthwhile_clips
      [SBSegment.mk (0, 10) ("sponsor"), SBSegment.mk (2, 3) ("sponsor")] 10 ≠
      [] := by
  refine ⟨?_, by decide, by decide⟩
  intro t h0 h10
  exact ⟨(0, 10), List.mem_cons_self _ _, h0, h10⟩

/-- Claim C2 (amended): when each unwanted interval lies inside
`[0, total_duration]` (0 ≤ start ≤ end ≤ total_duration), no interval is
nested strictly inside an earlier one, and the union of the intervals
covers all of `[0, total_duration)`, `find_worthwhile_clips` returns the
empty list. -/
theorem claim_C2_amended (segments : List SBSegment) (total_duration : ℚ)
    (hwf : ∀ q ∈ segments, 0 ≤ q.segment.1 ∧ q.segment.1 ≤ q.segment.2 ∧
      q.segment.2 ≤ total_duration)
    (hnest : List.Chain' (fun a b : ℚ × ℚ => a.2 ≤ b.2)
      (sortSegs (segments.map (fun x => x.segment))))
    (hcov : ∀ t : ℚ, 0 ≤ t → t < total_duration →
      covered (segments.map (fun x => x.segment)) t) :
    find_worthwhile_clips segments total_duration = [] := by
  have heq := find_eq_compute segments total_duration
    (fun q hq => ⟨(hwf q hq).1, (hwf q hq).2.1⟩) hnest
  rw [heq]
  by_contra hne
  obtain ⟨p, hp⟩ := List.exists_mem_of_ne_nil _ hne
  have hp' : p ∈ sweepClipsMax 0
      (sortSegs (segments.map (fun x => x.segment))) total_duration := hp
  have hse : ∀ q ∈ sortSegs (segments.map (fun x => x.segment)),
      q.1 ≤ q.2 := by
    intro q hq
    obtain ⟨x, hx, rfl⟩ := List.mem_map.mp (mem_sortSegs.mp hq)
    exact (hwf x hx).2.1
  have hsT : ∀ q ∈ sortSegs (segments.map (fun x => x.segment)),
      q.1 ≤ total_duration := by
    intro q hq
    obtain ⟨x, hx, rfl⟩ := List.mem_map.mp (mem_sortSegs.mp hq)
    exact (hwf x hx).2.1.trans (hwf x hx).2.2
  have hpos : p.1 < p.2 := sweepClipsMax_pos p hp'
  obtain ⟨h0, hT, hncov⟩ :=
    (sweepClipsMax_mem_iff (sortSegs_pairwise_fst _) hse hsT p.1).mp
      ⟨p, hp', le_refl _, hpos⟩
  exact hncov (covered_sortSegs.mpr (hcov p.1 h0 hT))

/-- Witness for the amended C2: overlapping unwanted `[(0,4), (3,10)]`
covering duration 10 yields no keep intervals. -/
theorem claim_C2_witness :
    ((∀ q ∈ [SBSegment.mk (0, 4) ("sponsor"), SBSegment.mk (3, 10) ("sponsor")],
      0 ≤ q.segment.1 ∧ q.segment.1 ≤ q.segment.2 ∧ q.segment.2 ≤ (10 : ℚ)) ∧
      List.Chain' (fun a b : ℚ × ℚ => a.2 ≤ b.2)
        (sortSegs (List.map (fun x => x.segment)
          [SBSegment.mk (0, 4) ("sponsor"), SBSegment.mk (3, 10) ("sponsor")]))) ∧
    find_worthwhile_clips
      [SBSegment.mk (0, 4) ("sponsor"), SBSegment.mk (3, 10) ("sponsor")] 10 =
      [] :=
  ⟨⟨by decide, chain_ends_overlap_example⟩,
    claim_C2_amended
      [SBSegment.mk (0, 4) ("sponsor"), SBSegment.mk (3, 10) ("sponsor")] 10
      (by decide) chain_ends_overlap_example
      (fun t h0 h10 => by
        by_cases ht : t < 4
        · exact ⟨(0, 4), List.mem_cons_self _ _, h0, ht⟩
        · push_neg at ht
          exact ⟨(3, 10),
            List.mem_cons_of_mem _ (List.mem_cons_self _ _),
            by norm_num; linarith, h10⟩)⟩

/-- Claim C10: when each unwanted interval satisfies
0 ≤ start ≤ end ≤ total_duration and, after sorting, no interval is nested
strictly inside an earlier one (ends non-decreasing),
`find_worthwhile_clips` returns exactly the ordered complement of the
union of the unwanted intervals within `[0, total_duration]`: a point of
`[0, total_duration)` lies in a keep interval iff it is covered by no
unwanted interval, and the keep intervals are positive and in strictly
increasing, non-overlapping order. -/
theorem claim_C10 (segments : List SBSegment) (total_duration : ℚ)
    (hwf : ∀ q ∈ segments, 0 ≤ q.segment.1 ∧ q.segment.1 ≤ q.segment.2 ∧
      q.segment.2 ≤ total_duration)
    (hnest : List.Chain' (fun a b : ℚ × ℚ => a.2 ≤ b.2)
      (sortSegs (segments.map (fun x => x.segment)))) :
    (∀ t : ℚ,
      (∃ p ∈ find_worthwhile_clips segments total_duration,
        p.1 ≤ t ∧ t < p.2) ↔
      (0 ≤ t ∧ t < total_duration ∧
        ¬ covered (segments.map (fun x => x.segment)) t)) ∧
    List.Chain' (fun p q : ℚ × ℚ => p.2 ≤ q.1)
      (find_worthwhile_clips segments total_duration) ∧
    ∀ p ∈ find_worthwhile_clips segments total_duration, p.1 < p.2 := by
  have heq := find_eq_compute segments total_duration
    (fun q hq => ⟨(hwf q hq).1, (hwf q hq).2.1⟩) hnest
  have hse : ∀ q ∈ sortSegs (segments.map (fun x => x.segment)),
      q.1 ≤ q.2 := by
    intro q hq
    obtain ⟨x, hx, rfl⟩ := List.mem_map.mp (mem_sortSegs.mp hq)
    exact (hwf x hx).2.1
  have hsT : ∀ q ∈ sortSegs (segments.map (fun x => x.segment)),
      q.1 ≤ total_duration := by
    intro q hq
    obtain ⟨x, hx, rfl⟩ := List.mem_map.mp (mem_sortSegs.mp hq)
    exact (hwf x hx).2.1.trans (hwf x hx).2.2
  refine ⟨?_, ?_, ?_⟩
  · intro t
    rw [heq]
    rw [show compute_keep_intervals (segments.map (fun x => x.segment))
        total_duration =
      sweepClipsMax 0 (sortSegs (segments.map (fun x => x.segment)))
        total_duration from rfl]
    rw [sweepClipsMax_mem_iff (sortSegs_pairwise_fst _) hse hsT t]
    rw [covered_sortSegs]
  · rw [heq]
    exact sweepClipsMax_chain hse
  · rw [heq]
    exact fun p hp => sweepClipsMax_pos p hp

/-- Witness for C10 at the spec's end-to-end scenario, with the pointwise
complement property instantiated at t = 30. -/
theorem claim_C10_witness :
    ((∀ q ∈ [SBSegment.mk (10, 20) ("sponsor"), SBSegment.mk (50, 55) ("sponsor")],
      0 ≤ q.segment.1 ∧ q.segment.1 ≤ q.segment.2 ∧ q.segment.2 ≤ (100 : ℚ)) ∧
      List.Chain' (fun a b : ℚ × ℚ => a.2 ≤ b.2)
        (sortSegs (List.map (fun x => x.segment)
          [SBSegment.mk (10, 20) ("sponsor"), SBSegment.mk (50, 55) ("sponsor")]))) ∧
    ((∃ p ∈ find_worthwhile_clips
        [SBSegment.mk (10, 20) ("sponsor"), SBSegment.mk (50, 55) ("sponsor")] 100,
        p.1 ≤ (30 : ℚ) ∧ (30 : ℚ) < p.2) ↔
      (0 ≤ (30 : ℚ) ∧ (30 : ℚ) < 100 ∧
        ¬ covered (List.map (fun x => x.segment)
          [SBSegment.mk (10, 20) ("sponsor"), SBSegment.mk (50, 55) ("sponsor")])
          30)) :=
  ⟨⟨by decide, chain_ends_spec_example⟩,
    (claim_C10
      [SBSegment.mk (10, 20) ("sponsor"), SBSegment.mk (50, 55) ("sponsor")] 100
      (by decide) chain_ends_spec_example).1 30⟩

/-- Claim C4: when the segment-provider response body fails to parse as
JSON, `add_sponsor_video_filter` returns exactly the original, untrimmed
video and audio tracks, and the pipeline output tracks are the untrimmed
inputs with only the speed-up, the conditional downscale and the audio
tempo filter applied. -/
theorem claim_C4 (parseJson : String → Option (List SBSegment)) (text : String)
    (video_stream : VTrack) (audio_stream : ATrack) (total_duration : ℚ)
    (new_height new_width : Nat)
    (hparse : parseJson text = none) :
    add_sponsor_video_filter parseJson video_stream audio_stream
      (NetOutcome.response text) total_duration =
      Except.ok (video_stream, audio_stream) ∧
    pipeline_tracks parseJson (NetOutcome.response text) total_duration
      new_height new_width =
      Except.ok
        (if new_height > MAX_HEIGHT ∨ new_width > MAX_WIDTH then
            VTrack.scale (VTrack.setpts VTrack.input ("PTS/2.5"))
              MAX_WIDTH MAX_HEIGHT
          else VTrack.setpts VTrack.input ("PTS/2.5"),
          ATrack.atempo ATrack.input SPEED_FACTOR) := by
  have hadd : ∀ (v : VTrack) (a : ATrack),
      add_sponsor_video_filter parseJson v a (NetOutcome.response text)
        total_duration = Except.ok (v, a) := by
    intro v a
    unfold add_sponsor_video_filter fetch_sponsored_bits
    by_cases ht : text = ("Not Found")
    · simp [ht]
    · simp [ht, hparse]
  refine ⟨hadd _ _, ?_⟩
  unfold pipeline_tracks
  rw [hadd]

/-- Witness for C4: a parser that rejects everything, on an arbitrary
response body, over a 4K (2160 by 3840) source of duration 100. -/
theorem claim_C4_witness :
    ((fun _ : String => (none : Option (List SBSegment))) ("garbage") =
      none) ∧
    (add_sponsor_video_filter (fun _ : String => none) VTrack.input
      ATrack.input (NetOutcome.response ("garbage")) 100 =
      Except.ok (VTrack.input, ATrack.input) ∧
    pipeline_tracks (fun _ : String => none) (NetOutcome.response ("garbage"))
      100 2160 3840 =
      Except.ok
        (if 2160 > MAX_HEIGHT ∨ 3840 > MAX_WIDTH then
            VTrack.scale (VTrack.setpts VTrack.input ("PTS/2.5"))
              MAX_WIDTH MAX_HEIGHT
          else VTrack.setpts VTrack.input ("PTS/2.5"),
          ATrack.atempo ATrack.input SPEED_FACTOR)) :=
  ⟨rfl,
    claim_C4 (fun _ : String => none) ("garbage") VTrack.input ATrack.input
      100 2160 3840 rfl⟩

/-- Counterexample to C5 as stated: only `requests.exceptions.ReadTimeout`
is caught by `fetch_sponsored_bits`; any other exception raised by the
query (for example a connection error) propagates out of
`add_sponsor_video_filter` instead of degrading to no trimming. -/
theorem claim_C5_counterexample :
    add_sponsor_video_filter (fun _ : String => none) VTrack.input
      ATrack.input (NetOutcome.otherException
        ("requests.exceptions.ConnectionError")) 100 =
      Except.error ("requests.exceptions.ConnectionError") ∧
    add_sponsor_video_filter (fun _ : String => none) VTrack.input
      ATrack.input (NetOutcome.otherException
        ("requests.exceptions.ConnectionError")) 100 ≠
      Except.ok (VTrack.input, ATrack.input) := by
  constructor
  · rfl
  · intro h
    simp [add_sponsor_video_filter, fetch_sponsored_bits] at h

/-- Claim C5 (amended): when the segment-provider query raises a read
timeout, `add_sponsor_video_filter` returns the original tracks unchanged
and does not raise; exceptions other than the read timeout are not caught
and propagate. -/
theorem claim_C5_amended (parseJson : String → Option (List SBSegment))
    (video_stream : VTrack) (audio_stream : ATrack) (total_duration : ℚ) :
    add_sponsor_video_filter parseJson video_stream audio_stream
      NetOutcome.readTimeout total_duration =
      Except.ok (video_stream, audio_stream) := by
  unfold add_sponsor_video_filter fetch_sponsored_bits
  simp

end SpeederUpper
